import Mathlib

/-!
Verification of the Bookmark_Manager repository.

This file shallowly embeds the data model and the algorithms of
`src/services/cloudSync.ts` (a concatenation of the cloud-sync service,
the import/export service, the organizer service and the link-checker
service) and settles the frozen claims about them.

Modelling conventions:
* JavaScript strings are Lean `String`s; `s.toLowerCase()` is `String.toLower`
  (both lower ASCII letters; Unicode case folding plays no role in the claims).
* JavaScript truthiness of an optional string field (`undefined` and `""` are
  falsy) is `optTruthy`.
* The browser's `RegExp.test` and the WHATWG `URL` constructor are platform
  code, abstracted as function parameters (`regexTest`, `urlParse`).
* `Map` objects are association lists in insertion order; `Set` objects are
  lists queried only through membership.
* Fractional similarity scores are rationals; the scores produced by the code
  are ratios of small naturals, which IEEE doubles represent exactly.
-/

namespace BookmarkMgr

/-- Character-list version of `String.startsWith`. -/
def startsWithChars : List Char → List Char → Bool
  | [], _ => true
  | _ :: _, [] => false
  | a :: as, b :: bs => a == b && startsWithChars as bs

/-- Does `sub` occur as a contiguous run inside `l`? -/
def hasSubChars (sub : List Char) : List Char → Bool
  | [] => startsWithChars sub []
  | b :: bs => startsWithChars sub (b :: bs) || hasSubChars sub bs

/-- JavaScript `String.prototype.includes`: substring containment. -/
def jsIncludes (hay sub : String) : Bool :=
  hasSubChars sub.data hay.data

/-- JavaScript `String.prototype.toLowerCase` (like `String.toLower`, written
through `List.map` so that concrete witnesses evaluate; no claim hinges on
Unicode case folding beyond ASCII). -/
def jsToLower (s : String) : String :=
  String.mk (s.data.map Char.toLower)

/-- JavaScript `String.prototype.startsWith`. -/
def jsStartsWith (s p : String) : Bool :=
  startsWithChars p.data s.data

/-- JavaScript truthiness of an optional string field: `undefined` and the
empty string are falsy. -/
def optTruthy : Option String → Bool
  | some s => s != ""
  | none => false

/-- Status enum of a `BookmarkNode` (`types/index.ts`). -/
inductive NodeStatus where
  | normal | broken | redirect | checking | timeout | error
deriving DecidableEq, Repr

/-- Status enum of a `LinkCheckResult` (`types/index.ts`): the node enum
without `checking`. -/
inductive LCStatus where
  | normal | broken | redirect | timeout | error
deriving DecidableEq, Repr

/-- Scalar fields of a `BookmarkNode` (`types/index.ts`).  Fields no claim
touches (`dateAdded`, `dateGroupModified`, `index`, `tags`, `notes`,
`visitCount`, ...) are omitted; they ride along unchanged through every
operation modelled here exactly as the modelled optional fields do. -/
structure NodeData where
  id : String
  title : String
  url : Option String
  parentId : Option String
  status : Option NodeStatus
deriving DecidableEq, Repr

/-- A bookmark tree node: scalar data plus the optional recursive
`children` array. -/
inductive BookmarkNode where
  | mk (data : NodeData) (children : Option (List BookmarkNode))

/-- Scalar data of a node. -/
def BookmarkNode.data : BookmarkNode → NodeData
  | .mk d _ => d

/-- Children field of a node. -/
def BookmarkNode.children : BookmarkNode → Option (List BookmarkNode)
  | .mk _ cs => cs

@[simp] theorem BookmarkNode.data_mk (d : NodeData) (cs : Option (List BookmarkNode)) :
    (BookmarkNode.mk d cs).data = d := rfl

@[simp] theorem BookmarkNode.children_mk (d : NodeData) (cs : Option (List BookmarkNode)) :
    (BookmarkNode.mk d cs).children = cs := rfl

/-- Induction principle for the nested tree type: to prove `P` for every
node it suffices to prove it for `mk d ocs` assuming it for every child. -/
theorem BookmarkNode.ind (P : BookmarkNode → Prop)
    (h : ∀ d ocs, (∀ cs, ocs = some cs → ∀ c ∈ cs, P c) → P (BookmarkNode.mk d ocs)) :
    ∀ n, P n := by
  have aux : ∀ k n, sizeOf n ≤ k → P n := by
    intro k
    induction k with
    | zero =>
      intro n hn
      cases n with
      | mk d ocs => simp at hn
    | succ k ih =>
      intro n hn
      cases n with
      | mk d ocs =>
        apply h
        intro cs hcs c hc
        apply ih
        subst hcs
        have h1 : sizeOf c < sizeOf cs := List.sizeOf_lt_of_mem hc
        simp at hn
        omega
  intro n
  exact aux (sizeOf n) n (Nat.le_refl _)

/-- A categorization rule (`types/index.ts`). -/
structure CategoryRule where
  id : String
  name : String
  keywords : List String
  urlPatterns : Option (List String)
  targetFolder : String
deriving DecidableEq, Repr

/-- Embedding of `BookmarkOrganizerService.matchesRule`.  `regexTest pat url`
abstracts `new RegExp(pat).test(url)`; an invalid pattern (for which
`new RegExp` throws and the catch returns false) is a pattern on which
`regexTest` is constantly false. -/
def matchesRule (regexTest : String → String → Bool) (d : NodeData) (rule : CategoryRule) : Bool :=
  let keywordHit :=
    if rule.keywords.length > 0 then
      rule.keywords.any fun keyword =>
        jsIncludes (jsToLower d.title) (jsToLower keyword) ||
        jsIncludes (jsToLower (d.url.getD "")) (jsToLower keyword)
    else false
  if keywordHit then true
  else
    match rule.urlPatterns, d.url with
    | some pats, some url =>
      if pats.length > 0 && url != "" then pats.any fun pat => regexTest pat url
      else false
    | _, _ => false

/-- The `for (const rule of rules) { if (matchesRule) { ...; break; } }` loop
of `categorizeBookmarks`: target folder of the first matching rule. -/
def catLoop (regexTest : String → String → Bool) (d : NodeData) : List CategoryRule → Option String
  | [] => none
  | r :: rs => if matchesRule regexTest d r then some r.targetFolder else catLoop regexTest d rs

/-- A JavaScript `Map<string, BookmarkNode[]>` in insertion order. -/
abbrev NodeMap : Type := List (String × List BookmarkNode)

/-- `map.get(k)` followed by a default `[]`: the bucket stored at `k`. -/
def mapGetD : NodeMap → String → List BookmarkNode
  | [], _ => []
  | (k, vs) :: rest, f => if k = f then vs else mapGetD rest f

/-- `if (!map.has(k)) map.set(k, []); map.get(k)!.push(v)`. -/
def mapPush : NodeMap → String → BookmarkNode → NodeMap
  | [], k, v => [(k, [v])]
  | (k', vs) :: rest, k, v =>
    if k' = k then (k', vs ++ [v]) :: rest else (k', vs) :: mapPush rest k v

mutual

/-- Embedding of the inner `categorizeNode` closure of
`BookmarkOrganizerService.categorizeBookmarks`. -/
def categorizeNode (regexTest : String → String → Bool) (rules : List CategoryRule)
    (m : NodeMap) : BookmarkNode → NodeMap
  | .mk d ocs =>
    if optTruthy d.url then
      let m1 := match catLoop regexTest d rules with
        | some f => mapPush m f (.mk d ocs)
        | none => m
      categorizeOpt regexTest rules m1 ocs
    else
      categorizeOpt regexTest rules m ocs

/-- `node.children?.forEach(categorizeNode)`. -/
def categorizeOpt (regexTest : String → String → Bool) (rules : List CategoryRule)
    (m : NodeMap) : Option (List BookmarkNode) → NodeMap
  | none => m
  | some cs => categorizeList regexTest rules m cs

/-- Sequential categorization of a list of sibling nodes. -/
def categorizeList (regexTest : String → String → Bool) (rules : List CategoryRule)
    (m : NodeMap) : List BookmarkNode → NodeMap
  | [] => m
  | c :: cs => categorizeList regexTest rules (categorizeNode regexTest rules m c) cs

end

/-- Embedding of `BookmarkOrganizerService.categorizeBookmarks`. -/
def categorizeBookmarks (regexTest : String → String → Bool)
    (bookmarks : List BookmarkNode) (rules : List CategoryRule) : NodeMap :=
  categorizeList regexTest rules [] bookmarks

mutual

/-- All nodes of a tree, the root included. -/
def allNodes : BookmarkNode → List BookmarkNode
  | .mk d ocs => .mk d ocs :: allNodesOpt ocs

/-- All nodes reachable through an optional children field. -/
def allNodesOpt : Option (List BookmarkNode) → List BookmarkNode
  | none => []
  | some cs => allNodesList cs

/-- All nodes of a forest. -/
def allNodesList : List BookmarkNode → List BookmarkNode
  | [] => []
  | c :: cs => allNodes c ++ allNodesList cs

end

theorem mem_mapGetD_mapPush (m : NodeMap) (k : String) (v : BookmarkNode) (x : BookmarkNode)
    (f : String) :
    x ∈ mapGetD (mapPush m k v) f ↔ x ∈ mapGetD m f ∨ (x = v ∧ f = k) := by
  induction m with
  | nil =>
    simp only [mapPush, mapGetD]
    by_cases hk : k = f
    · rw [if_pos hk]
      simp [hk.symm]
    · rw [if_neg hk]
      simp [Ne.symm hk]
  | cons p rest ih =>
    obtain ⟨k', vs⟩ := p
    by_cases hk : k' = k
    · subst hk
      simp only [mapPush, if_pos rfl, mapGetD]
      by_cases hf : k' = f
      · rw [if_pos hf, if_pos hf]
        simp [hf]
      · rw [if_neg hf, if_neg hf]
        simp [Ne.symm hf]
    · simp only [mapPush, if_neg hk, mapGetD]
      by_cases hf : k' = f
      · rw [if_pos hf, if_pos hf]
        have : ¬f = k := fun h => hk (hf.trans h)
        simp [this]
      · rw [if_neg hf, if_neg hf]
        exact ih

/-- Property of a single node used to characterize membership in the
categorization map: processing the node adds to bucket `f` exactly the
url-bearing nodes of its subtree whose first matching rule targets `f`. -/
def CatMemP (regexTest : String → String → Bool) (rules : List CategoryRule)
    (n : BookmarkNode) : Prop :=
  ∀ m f x, x ∈ mapGetD (categorizeNode regexTest rules m n) f ↔
    x ∈ mapGetD m f ∨
      (x ∈ allNodes n ∧ optTruthy x.data.url = true ∧ catLoop regexTest x.data rules = some f)

theorem catList_mem (regexTest : String → String → Bool) (rules : List CategoryRule)
    (cs : List BookmarkNode) (hc : ∀ c ∈ cs, CatMemP regexTest rules c) :
    ∀ m f x, x ∈ mapGetD (categorizeList regexTest rules m cs) f ↔
      x ∈ mapGetD m f ∨
        (x ∈ allNodesList cs ∧ optTruthy x.data.url = true ∧
          catLoop regexTest x.data rules = some f) := by
  induction cs with
  | nil => simp [categorizeList, allNodesList]
  | cons c cs ih =>
    intro m f x
    have hstep := hc c (List.mem_cons_self c cs)
    have htail := ih (fun c h => hc c (List.mem_cons_of_mem _ h))
    rw [categorizeList, htail, hstep]
    simp only [allNodesList, List.mem_append]
    tauto

theorem catOpt_mem (regexTest : String → String → Bool) (rules : List CategoryRule)
    (ocs : Option (List BookmarkNode))
    (hc : ∀ cs, ocs = some cs → ∀ c ∈ cs, CatMemP regexTest rules c) :
    ∀ m f x, x ∈ mapGetD (categorizeOpt regexTest rules m ocs) f ↔
      x ∈ mapGetD m f ∨
        (x ∈ allNodesOpt ocs ∧ optTruthy x.data.url = true ∧
          catLoop regexTest x.data rules = some f) := by
  cases ocs with
  | none => simp [categorizeOpt, allNodesOpt]
  | some cs => exact catList_mem regexTest rules cs (hc cs rfl)

theorem catNode_mem (regexTest : String → String → Bool) (rules : List CategoryRule) :
    ∀ n, CatMemP regexTest rules n := by
  apply BookmarkNode.ind
  intro d ocs ih
  intro m f x
  have hopt := catOpt_mem regexTest rules ocs (fun cs h c hc => ih cs h c hc)
  by_cases hu : optTruthy d.url
  · cases hcl : catLoop regexTest d rules with
    | none =>
      rw [categorizeNode, if_pos hu, hcl, hopt]
      simp only [allNodes, List.mem_cons]
      constructor
      · rintro (hm | ⟨ho, hA⟩)
        · exact Or.inl hm
        · exact Or.inr ⟨Or.inr ho, hA⟩
      · rintro (hm | ⟨(rfl | ho), hA⟩)
        · exact Or.inl hm
        · rw [BookmarkNode.data_mk, hcl] at hA
          exact absurd hA.2 (by simp)
        · exact Or.inr ⟨ho, hA⟩
    | some f' =>
      rw [categorizeNode, if_pos hu, hcl, hopt, mem_mapGetD_mapPush]
      simp only [allNodes, List.mem_cons]
      constructor
      · rintro ((hm | ⟨rfl, rfl⟩) | ⟨ho, hA⟩)
        · exact Or.inl hm
        · exact Or.inr ⟨Or.inl rfl, by rw [BookmarkNode.data_mk]; exact ⟨hu, hcl⟩⟩
        · exact Or.inr ⟨Or.inr ho, hA⟩
      · rintro (hm | ⟨(rfl | ho), hA⟩)
        · exact Or.inl (Or.inl hm)
        · rw [BookmarkNode.data_mk, hcl] at hA
          exact Or.inl (Or.inr ⟨rfl, (Option.some_injective _ hA.2).symm⟩)
        · exact Or.inr ⟨ho, hA⟩
  · rw [categorizeNode, if_neg hu, hopt]
    simp only [allNodes, List.mem_cons]
    constructor
    · rintro (hm | ⟨ho, hA⟩)
      · exact Or.inl hm
      · exact Or.inr ⟨Or.inr ho, hA⟩
    · rintro (hm | ⟨(rfl | ho), hA⟩)
      · exact Or.inl hm
      · rw [BookmarkNode.data_mk] at hA
        exact absurd hA.1 hu
      · exact Or.inr ⟨ho, hA⟩

theorem catLoop_eq_some_iff (regexTest : String → String → Bool) (d : NodeData)
    (rules : List CategoryRule) (f : String) :
    catLoop regexTest d rules = some f ↔
      ∃ pre r post, rules = pre ++ r :: post ∧ matchesRule regexTest d r = true ∧
        f = r.targetFolder ∧ ∀ r2 ∈ pre, matchesRule regexTest d r2 = false := by
  induction rules with
  | nil =>
    simp only [catLoop]
    constructor
    · intro h
      exact absurd h (by simp)
    · rintro ⟨pre, r, post, h, -⟩
      exact absurd h (by simp)
  | cons r0 rs ih =>
    by_cases hm : matchesRule regexTest d r0 = true
    · rw [catLoop, if_pos hm]
      constructor
      · intro h
        exact ⟨[], r0, rs, rfl, hm, (Option.some_injective _ h).symm, by simp⟩
      · rintro ⟨pre, r, post, heq, hmr, hf, hall⟩
        cases pre with
        | nil =>
          simp only [List.nil_append, List.cons.injEq] at heq
          rw [hf, ← heq.1]
        | cons p pre2 =>
          simp only [List.cons_append, List.cons.injEq] at heq
          have hp := hall p (List.mem_cons_self p pre2)
          rw [← heq.1] at hp
          rw [hp] at hm
          simp at hm
    · rw [catLoop, if_neg hm, ih]
      constructor
      · rintro ⟨pre, r, post, heq, hmr, hf, hall⟩
        refine ⟨r0 :: pre, r, post, by rw [heq, List.cons_append], hmr, hf, ?_⟩
        intro r2 hr2
        rcases List.mem_cons.mp hr2 with rfl | hr2
        · exact Bool.not_eq_true _ ▸ (by revert hm; cases matchesRule regexTest d r2 <;> simp)
        · exact hall r2 hr2
      · rintro ⟨pre, r, post, heq, hmr, hf, hall⟩
        cases pre with
        | nil =>
          simp only [List.nil_append, List.cons.injEq] at heq
          rw [← heq.1] at hmr
          exact absurd hmr hm
        | cons p pre2 =>
          simp only [List.cons_append, List.cons.injEq] at heq
          exact ⟨pre2, r, post, heq.2, hmr, hf, fun r2 h => hall r2 (List.mem_cons_of_mem _ h)⟩

theorem catLoop_eq_none_iff (regexTest : String → String → Bool) (d : NodeData)
    (rules : List CategoryRule) :
    catLoop regexTest d rules = none ↔ ∀ r ∈ rules, matchesRule regexTest d r = false := by
  induction rules with
  | nil => simp [catLoop]
  | cons r0 rs ih =>
    by_cases hm : matchesRule regexTest d r0 = true
    · rw [catLoop, if_pos hm]
      simp only [List.mem_cons]
      constructor
      · intro h
        exact absurd h (by simp)
      · intro h
        have := h r0 (Or.inl rfl)
        rw [hm] at this
        exact absurd this (by simp)
    · rw [catLoop, if_neg hm, ih]
      simp only [List.mem_cons]
      constructor
      · intro h r hr
        rcases hr with rfl | hr
        · revert hm; cases matchesRule regexTest d r <;> simp
        · exact h r hr
      · intro h r hr
        exact h r (Or.inr hr)

/-- C1: for every bookmark node with a (truthy) URL inside the forest and
every ordered rule list, `categorizeBookmarks` puts the node into the bucket
of the target folder of the first rule in list order that matches it (and no
other bucket); a matching rule preceded only by non-matching rules decides
the folder, and a bookmark matching no rule lands in no bucket. -/
theorem categorize_first_match_wins (regexTest : String → String → Bool)
    (rules : List CategoryRule) (bookmarks : List BookmarkNode) (n : BookmarkNode)
    (hn : n ∈ allNodesList bookmarks) (hu : optTruthy n.data.url = true) :
    (∀ f, n ∈ mapGetD (categorizeBookmarks regexTest bookmarks rules) f ↔
       catLoop regexTest n.data rules = some f)
    ∧ (∀ f, catLoop regexTest n.data rules = some f ↔
        ∃ pre r post, rules = pre ++ r :: post ∧ matchesRule regexTest n.data r = true ∧
          f = r.targetFolder ∧ ∀ r2 ∈ pre, matchesRule regexTest n.data r2 = false)
    ∧ ((∀ r ∈ rules, matchesRule regexTest n.data r = false) →
        ∀ f, n ∉ mapGetD (categorizeBookmarks regexTest bookmarks rules) f) := by
  have hmem : ∀ f, n ∈ mapGetD (categorizeBookmarks regexTest bookmarks rules) f ↔
      catLoop regexTest n.data rules = some f := by
    intro f
    rw [categorizeBookmarks,
      catList_mem regexTest rules bookmarks (fun c _ => catNode_mem regexTest rules c)]
    simp [mapGetD, hn, hu]
  refine ⟨hmem, fun f => catLoop_eq_some_iff regexTest n.data rules f, ?_⟩
  intro hnone f hf
  have h1 := (hmem f).mp hf
  rw [(catLoop_eq_none_iff regexTest n.data rules).mpr hnone] at h1
  exact absurd h1 (by simp)

/-- Regex oracle matching nothing, for concrete witnesses. -/
def noRegex : String → String → Bool := fun _ _ => false

/-- Concrete bookmark used in witnesses. -/
def wNode : BookmarkNode :=
  .mk ⟨"1", "GitHub", some "http://github.com", none, none⟩ none

/-- First witness rule: keyword `git`, target folder `A`. -/
def wRuleA : CategoryRule := ⟨"r1", "tech", ["git"], none, "A"⟩

/-- Second witness rule: same keyword, target folder `B`. -/
def wRuleB : CategoryRule := ⟨"r2", "tech2", ["git"], none, "B"⟩

/-- Witness for C1: both rules match the bookmark, and it lands in the first
rule's bucket `A`, not in the later rule's bucket `B`. -/
theorem categorize_first_match_wins_witness :
    wNode ∈ mapGetD (categorizeBookmarks noRegex [wNode] [wRuleA, wRuleB]) "A" ∧
    wNode ∉ mapGetD (categorizeBookmarks noRegex [wNode] [wRuleA, wRuleB]) "B" := by
  have h := categorize_first_match_wins noRegex [wRuleA, wRuleB] [wNode] wNode
    (by simp [wNode, allNodesList, allNodes, allNodesOpt]) (by decide)
  exact ⟨(h.1 "A").mpr (by decide), fun hc => absurd ((h.1 "B").mp hc) (by decide)⟩

/-- Separator class of the token-splitting regex `[\/\?&#=]+` in
`calculateUrlSimilarity`. -/
def urlSepChar (c : Char) : Bool :=
  c == '/' || c == '?' || c == '&' || c == '#' || c == '='

mutual

/-- Worker for JavaScript `String.prototype.split` on the regex
`[\/\?&#=]+`: `acc` holds the reversed characters of the current token. -/
def splitSepsGo : List Char → List Char → List String
  | [], acc => [String.mk acc.reverse]
  | c :: rest, acc =>
    if urlSepChar c then
      String.mk acc.reverse :: splitSepsRun rest
    else
      splitSepsGo rest (c :: acc)

/-- State inside a separator run: skip further separators, the run as a whole
makes a single split point. -/
def splitSepsRun : List Char → List String
  | [] => [""]
  | c :: rest => if urlSepChar c then splitSepsRun rest else splitSepsGo rest [c]

end

/-- JavaScript `s.split(/[\/\?&#=]+/)`. -/
def jsSplitSeps (s : String) : List String := splitSepsGo s.data []

/-- The token list of `calculateUrlSimilarity`: split on separator runs and
keep the pieces longer than two characters. -/
def simTokens (s : String) : List String :=
  (jsSplitSeps s).filter fun t => t.length > 2

/-- Embedding of `normalizeUrl`.  The WHATWG `URL` constructor is platform
code, abstracted as `urlParse`: `some out` is the serialization with the
hash cleared when parsing succeeds, `none` models the constructor throwing,
in which case the catch branch lowercases the raw string. -/
def normalizeUrl (urlParse : String → Option String) (url : String) : String :=
  match urlParse url with
  | some s => jsToLower s
  | none => jsToLower url

/-- Embedding of `calculateUrlSimilarity`: 1 on equal normalizations,
otherwise the length of the first token list filtered by membership in the
second, divided by the size of the union set of tokens. -/
def calculateUrlSimilarity (urlParse : String → Option String) (url1 url2 : String) : ℚ :=
  if normalizeUrl urlParse url1 = normalizeUrl urlParse url2 then 1
  else if (simTokens (normalizeUrl urlParse url1)).length = 0 ∨
      (simTokens (normalizeUrl urlParse url2)).length = 0 then 0
  else
    (((simTokens (normalizeUrl urlParse url1)).filter fun t =>
        decide (t ∈ simTokens (normalizeUrl urlParse url2))).length : ℚ) /
      (((simTokens (normalizeUrl urlParse url1) ++
          simTokens (normalizeUrl urlParse url2)).dedup).length : ℚ)

/-- Model of `urlParse` on inputs the WHATWG `URL` constructor rejects:
scheme-less strings such as `abc/abc` have no valid URL parse, so the
constructor throws and `normalizeUrl` falls into its catch branch. -/
def noUrlParse : String → Option String := fun _ => none

theorem calc_sim_abc_left : calculateUrlSimilarity noUrlParse "abc/abc" "abc" = 2 := by
  unfold calculateUrlSimilarity
  rw [if_neg (by decide), if_neg (by decide)]
  rw [show ((simTokens (normalizeUrl noUrlParse "abc/abc")).filter fun t =>
      decide (t ∈ simTokens (normalizeUrl noUrlParse "abc"))).length = 2 from by decide]
  rw [show ((simTokens (normalizeUrl noUrlParse "abc/abc") ++
      simTokens (normalizeUrl noUrlParse "abc")).dedup).length = 1 from by decide]
  norm_num

theorem calc_sim_abc_right : calculateUrlSimilarity noUrlParse "abc" "abc/abc" = 1 := by
  unfold calculateUrlSimilarity
  rw [if_neg (by decide), if_neg (by decide)]
  rw [show ((simTokens (normalizeUrl noUrlParse "abc")).filter fun t =>
      decide (t ∈ simTokens (normalizeUrl noUrlParse "abc/abc"))).length = 1 from by decide]
  rw [show ((simTokens (normalizeUrl noUrlParse "abc") ++
      simTokens (normalizeUrl noUrlParse "abc/abc")).dedup).length = 1 from by decide]
  norm_num

/-- C4 counterexample: the intersection count is taken over the first token
list with its duplicate tokens, so the similarity of `abc/abc` and `abc` is
2 in one order and 1 in the other. -/
theorem calculateUrlSimilarity_not_symmetric :
    calculateUrlSimilarity noUrlParse "abc/abc" "abc" = 2 ∧
    calculateUrlSimilarity noUrlParse "abc" "abc/abc" = 1 :=
  ⟨calc_sim_abc_left, calc_sim_abc_right⟩

theorem filter_mem_length_eq_card_inter {t1 t2 : List String} (h : t1.Nodup) :
    ((t1.filter fun t => decide (t ∈ t2)).length : ℚ) =
      ((t1.toFinset ∩ t2.toFinset).card : ℚ) := by
  have hfil : (t1.filter fun t => decide (t ∈ t2)).Nodup := h.filter _
  rw [← List.toFinset_card_of_nodup hfil, List.toFinset_filter]
  congr 2
  ext a
  simp [List.mem_toFinset]

theorem dedup_append_length_eq_card_union (t1 t2 : List String) :
    (((t1 ++ t2).dedup).length : ℚ) = ((t1.toFinset ∪ t2.toFinset).card : ℚ) := by
  rw [← List.card_toFinset, List.toFinset_append]

/-- C4 (corrected): `calculateUrlSimilarity` is symmetric whenever the two
normalized token lists are duplicate-free; in general the multiset
intersection count of the first argument breaks symmetry. -/
theorem calculateUrlSimilarity_symm_of_nodup (urlParse : String → Option String)
    (a b : String)
    (h1 : (simTokens (normalizeUrl urlParse a)).Nodup)
    (h2 : (simTokens (normalizeUrl urlParse b)).Nodup) :
    calculateUrlSimilarity urlParse a b = calculateUrlSimilarity urlParse b a := by
  unfold calculateUrlSimilarity
  by_cases heq : normalizeUrl urlParse a = normalizeUrl urlParse b
  · rw [if_pos heq, if_pos heq.symm]
  · rw [if_neg heq, if_neg (Ne.symm heq)]
    by_cases hz : (simTokens (normalizeUrl urlParse a)).length = 0 ∨
        (simTokens (normalizeUrl urlParse b)).length = 0
    · rw [if_pos hz, if_pos (Or.symm hz)]
    · rw [if_neg hz, if_neg (fun h => hz (Or.symm h))]
      rw [filter_mem_length_eq_card_inter h1, filter_mem_length_eq_card_inter h2,
        dedup_append_length_eq_card_union, dedup_append_length_eq_card_union,
        Finset.inter_comm, Finset.union_comm]

/-- Witness for C4: two duplicate-free URLs on which the symmetric equality
holds. -/
theorem calculateUrlSimilarity_symm_witness :
    (simTokens (normalizeUrl noUrlParse "abc/def")).Nodup ∧
    (simTokens (normalizeUrl noUrlParse "def")).Nodup ∧
    calculateUrlSimilarity noUrlParse "abc/def" "def" =
      calculateUrlSimilarity noUrlParse "def" "abc/def" :=
  ⟨by decide, by decide,
    calculateUrlSimilarity_symm_of_nodup noUrlParse "abc/def" "def" (by decide) (by decide)⟩

/-- A duplicate group (`types/index.ts`): canonical URL, the bookmark nodes
of the group, and a similarity score. -/
structure DuplicateInfo where
  url : String
  bookmarks : List BookmarkNode
  similarity : ℚ

/-- Options of `findDuplicates`. -/
structure DupOptions where
  exactMatch : Bool
  similarMatch : Bool

mutual

/-- The `collectUrls` closure of `findDuplicates` and
`findSimilarDuplicates`: group url-bearing nodes by normalized URL. -/
def collectNode (urlParse : String → Option String) (m : NodeMap) : BookmarkNode → NodeMap
  | .mk d ocs =>
    collectOpt urlParse
      (if optTruthy d.url then
        mapPush m (normalizeUrl urlParse (d.url.getD "")) (.mk d ocs)
      else m)
      ocs

/-- `node.children?.forEach(collectUrls)`. -/
def collectOpt (urlParse : String → Option String) (m : NodeMap) :
    Option (List BookmarkNode) → NodeMap
  | none => m
  | some cs => collectList urlParse m cs

/-- `bookmarks.forEach(collectUrls)` over sibling lists. -/
def collectList (urlParse : String → Option String) (m : NodeMap) :
    List BookmarkNode → NodeMap
  | [] => m
  | c :: cs => collectList urlParse (collectNode urlParse m c) cs

end

/-- The exact-duplicate phase of `findDuplicates`: every bucket with more
than one node becomes a group with similarity 1. -/
def exactDuplicates (m : NodeMap) : List DuplicateInfo :=
  m.filterMap fun p => if p.2.length > 1 then some ⟨p.1, p.2, 1⟩ else none

/-- The `i < j` double loop of `findSimilarDuplicates` over the url-map
entries: every pair above the 0.8 threshold is reported with the first key
as canonical URL and the concatenated node lists. -/
def similarFromKeys (urlParse : String → Option String) :
    List (String × List BookmarkNode) → List DuplicateInfo
  | [] => []
  | (u, l) :: rest =>
    (rest.filterMap fun q =>
      if calculateUrlSimilarity urlParse u q.1 > (4 : ℚ) / 5 then
        some ⟨u, l ++ q.2, calculateUrlSimilarity urlParse u q.1⟩
      else none) ++ similarFromKeys urlParse rest

/-- Embedding of `findSimilarDuplicates`. -/
def findSimilarDuplicates (urlParse : String → Option String)
    (bookmarks : List BookmarkNode) : List DuplicateInfo :=
  similarFromKeys urlParse (collectList urlParse [] bookmarks)

/-- Embedding of `findDuplicates`: exact groups always (the `exactMatch`
option is never consulted by the source), similar groups when
`similarMatch` is set. -/
def findDuplicates (urlParse : String → Option String) (bookmarks : List BookmarkNode)
    (opts : DupOptions) : List DuplicateInfo :=
  exactDuplicates (collectList urlParse [] bookmarks) ++
    if opts.similarMatch then findSimilarDuplicates urlParse bookmarks else []

theorem calc_sim_nonneg (urlParse : String → Option String) (a b : String) :
    0 ≤ calculateUrlSimilarity urlParse a b := by
  unfold calculateUrlSimilarity
  by_cases heq : normalizeUrl urlParse a = normalizeUrl urlParse b
  · rw [if_pos heq]
    norm_num
  · rw [if_neg heq]
    by_cases hz : (simTokens (normalizeUrl urlParse a)).length = 0 ∨
        (simTokens (normalizeUrl urlParse b)).length = 0
    · rw [if_pos hz]
    · rw [if_neg hz]
      positivity

theorem calc_sim_le_one (urlParse : String → Option String) (a b : String)
    (h1 : (simTokens (normalizeUrl urlParse a)).Nodup) :
    calculateUrlSimilarity urlParse a b ≤ 1 := by
  unfold calculateUrlSimilarity
  by_cases heq : normalizeUrl urlParse a = normalizeUrl urlParse b
  · rw [if_pos heq]
  · rw [if_neg heq]
    by_cases hz : (simTokens (normalizeUrl urlParse a)).length = 0 ∨
        (simTokens (normalizeUrl urlParse b)).length = 0
    · rw [if_pos hz]
      norm_num
    · rw [if_neg hz]
      push_neg at hz
      have hne : simTokens (normalizeUrl urlParse a) ≠ [] := by
        intro h
        exact hz.1 (by rw [h]; rfl)
      obtain ⟨x, hx⟩ := List.exists_mem_of_ne_nil _ hne
      have hxu : x ∈ (simTokens (normalizeUrl urlParse a)).toFinset ∪
          (simTokens (normalizeUrl urlParse b)).toFinset :=
        Finset.mem_union_left _ (List.mem_toFinset.mpr hx)
      have hpos : 0 < ((simTokens (normalizeUrl urlParse a)).toFinset ∪
          (simTokens (normalizeUrl urlParse b)).toFinset).card :=
        Finset.card_pos.mpr ⟨x, hxu⟩
      rw [filter_mem_length_eq_card_inter h1, dedup_append_length_eq_card_union]
      rw [div_le_one (by exact_mod_cast hpos)]
      have hsub : ((simTokens (normalizeUrl urlParse a)).toFinset ∩
          (simTokens (normalizeUrl urlParse b)).toFinset).card ≤
          ((simTokens (normalizeUrl urlParse a)).toFinset ∪
            (simTokens (normalizeUrl urlParse b)).toFinset).card :=
        Finset.card_le_card (Finset.inter_subset_left.trans Finset.subset_union_left)
      exact_mod_cast hsub

theorem exactDuplicates_sim (m : NodeMap) : ∀ d ∈ exactDuplicates m, d.similarity = 1 := by
  intro d hd
  rw [exactDuplicates, List.mem_filterMap] at hd
  obtain ⟨p, hp, hif⟩ := hd
  split at hif
  · obtain rfl := Option.some_injective _ hif
    rfl
  · cases hif

theorem similarFromKeys_sim (urlParse : String → Option String)
    (l : List (String × List BookmarkNode)) :
    ∀ d ∈ similarFromKeys urlParse l,
      ∃ p ∈ l, ∃ q ∈ l, d.similarity = calculateUrlSimilarity urlParse p.1 q.1 := by
  induction l with
  | nil =>
    intro d hd
    rw [similarFromKeys] at hd
    cases hd
  | cons hd0 rest ih =>
    obtain ⟨u, lst⟩ := hd0
    intro d hdmem
    rw [similarFromKeys, List.mem_append] at hdmem
    rcases hdmem with hmem | hmem
    · rw [List.mem_filterMap] at hmem
      obtain ⟨q, hq, hif⟩ := hmem
      split at hif
      · obtain rfl := Option.some_injective _ hif
        exact ⟨(u, lst), List.mem_cons_self _ _, q, List.mem_cons_of_mem _ hq, rfl⟩
      · cases hif
    · obtain ⟨p, hp, q, hq, he⟩ := ih d hmem
      exact ⟨p, List.mem_cons_of_mem _ hp, q, List.mem_cons_of_mem _ hq, he⟩

/-- C5 (corrected): every exact-URL duplicate group has similarity exactly 1,
and provided every collected url key has a duplicate-free token list, every
group `findDuplicates` reports has similarity in [0, 1].  Without that
proviso a similar group's score can exceed 1 (see the counterexample). -/
theorem findDuplicates_similarity_bounds (urlParse : String → Option String)
    (bookmarks : List BookmarkNode) (opts : DupOptions)
    (h : ∀ p ∈ collectList urlParse [] bookmarks,
      (simTokens (normalizeUrl urlParse p.1)).Nodup) :
    (∀ d ∈ exactDuplicates (collectList urlParse [] bookmarks), d.similarity = 1)
    ∧ ∀ d ∈ findDuplicates urlParse bookmarks opts, 0 ≤ d.similarity ∧ d.similarity ≤ 1 := by
  refine ⟨exactDuplicates_sim _, ?_⟩
  intro d hd
  rw [findDuplicates, List.mem_append] at hd
  rcases hd with hd | hd
  · rw [exactDuplicates_sim _ d hd]
    norm_num
  · split at hd
    · rw [findSimilarDuplicates] at hd
      obtain ⟨p, hp, q, hq, he⟩ := similarFromKeys_sim urlParse _ d hd
      rw [he]
      exact ⟨calc_sim_nonneg _ _ _, calc_sim_le_one _ _ _ (h p hp)⟩
    · cases hd

/-- Bookmark leaf with URL `abc` used in C5 witnesses. -/
def wDupA : BookmarkNode := .mk ⟨"a1", "first", some "abc", none, none⟩ none

/-- Second bookmark leaf with the same URL `abc`. -/
def wDupB : BookmarkNode := .mk ⟨"a2", "second", some "abc", none, none⟩ none

/-- The exact duplicate group the witness forest produces. -/
def wDup0 : DuplicateInfo := ⟨"abc", [wDupA, wDupB], 1⟩

/-- Witness for C5: a concrete forest with an exact duplicate whose reported
group sits inside [0, 1]. -/
theorem findDuplicates_similarity_bounds_witness :
    wDup0 ∈ findDuplicates noUrlParse [wDupA, wDupB] ⟨true, true⟩ ∧
    0 ≤ wDup0.similarity ∧ wDup0.similarity ≤ 1 := by
  have hmem : wDup0 ∈ findDuplicates noUrlParse [wDupA, wDupB] ⟨true, true⟩ := by
    show wDup0 ∈ [wDup0]
    exact List.mem_singleton.mpr rfl
  exact ⟨hmem,
    (findDuplicates_similarity_bounds noUrlParse [wDupA, wDupB] ⟨true, true⟩
      (by decide)).2 wDup0 hmem⟩

/-- Leaf with the duplicate-token URL `abc/abc`. -/
def ceNode1 : BookmarkNode := .mk ⟨"d1", "t1", some "abc/abc", none, none⟩ none

/-- Leaf with URL `abc`. -/
def ceNode2 : BookmarkNode := .mk ⟨"d2", "t2", some "abc", none, none⟩ none

/-- C5 counterexample: on the forest with URLs `abc/abc` and `abc`,
`findDuplicates` reports a single similar group whose similarity is 2,
outside [0, 1]. -/
theorem findDuplicates_similarity_gt_one :
    (findDuplicates noUrlParse [ceNode1, ceNode2] ⟨true, true⟩).map DuplicateInfo.similarity
      = [2] ∧ ¬((2 : ℚ) ≤ 1) := by
  have hgt : calculateUrlSimilarity noUrlParse "abc/abc" "abc" > (4 : ℚ) / 5 := by
    rw [calc_sim_abc_left]
    norm_num
  constructor
  · have hcol : collectList noUrlParse [] [ceNode1, ceNode2] =
        [("abc/abc", [ceNode1]), ("abc", [ceNode2])] := rfl
    rw [findDuplicates, hcol, findSimilarDuplicates, hcol]
    rw [show exactDuplicates [("abc/abc", [ceNode1]), ("abc", [ceNode2])] = [] from rfl]
    rw [similarFromKeys, similarFromKeys, similarFromKeys]
    rw [List.filterMap_cons, if_pos hgt, List.filterMap_nil]
    rw [calc_sim_abc_left]
    rfl
  · norm_num

/-- Export options (`types/index.ts`); the `format` discriminator is fixed
by the entry point and omitted. -/
structure ExportOptions where
  includeBroken : Option Bool
  selectedFolders : Option (List String)

/-- The filter predicate of `exportToJSON`'s `filterTree`: drop a node when
folder selection is active, the node has a truthy id and the id is not
selected, or when `includeBroken === false` and the node's status is
`broken`. -/
def keepNode (opts : ExportOptions) (d : NodeData) : Bool :=
  if opts.selectedFolders.isSome && d.id != "" &&
      !((opts.selectedFolders.getD []).contains d.id) then false
  else if opts.includeBroken == some false && decide (d.status = some NodeStatus.broken) then
    false
  else true

mutual

/-- The `map` part of `filterTree`: rebuild the node, recursing into a
present children field (an empty array is truthy and stays present). -/
def filterNode (opts : ExportOptions) : BookmarkNode → BookmarkNode
  | .mk d ocs => .mk d (filterOpt opts ocs)

/-- `node.children ? filterTree(node.children) : undefined`. -/
def filterOpt (opts : ExportOptions) : Option (List BookmarkNode) → Option (List BookmarkNode)
  | none => none
  | some cs => some (filterList opts cs)

/-- `nodes.filter(...).map(...)` of `filterTree`. -/
def filterList (opts : ExportOptions) : List BookmarkNode → List BookmarkNode
  | [] => []
  | c :: cs =>
    (if keepNode opts c.data then [filterNode opts c] else []) ++ filterList opts cs

end

/-- The JSON export payload `{ version, exportDate, bookmarks }`.  The
platform `JSON.stringify` / `JSON.parse` pair is the identity on this value
(dropped `undefined` fields correspond to `none`) and is modelled away;
`exportDate` is the current time string. -/
structure ExportData where
  version : String
  exportDate : String
  bookmarks : List BookmarkNode

/-- Embedding of `exportToJSON`. -/
def exportToJSON (now : String) (opts : ExportOptions) (tree : List BookmarkNode) :
    ExportData :=
  ⟨"1.0", now, filterList opts tree⟩

/-- `generateId` produces `bk_${Date.now()}_${random}`; the external clock
and randomness are modelled by a seed counter, the constant `bk_` prefix is
the source's. -/
def generateId (seed : Nat) : String := "bk_" ++ toString seed

mutual

/-- The `addIds` closure of `importFromJSON`: keep a truthy id, otherwise
generate a fresh one; overwrite `parentId`; rebuild children, passing the
node's original id as their parent id. -/
def addIdsNode (seed : Nat) (pid : Option String) : BookmarkNode → Nat × BookmarkNode
  | .mk d ocs =>
    let idPair := if d.id != "" then (seed, d.id) else (seed + 1, generateId seed)
    let rest := addIdsOpt idPair.1 d.id ocs
    (rest.1, .mk { d with id := idPair.2, parentId := pid } rest.2)

/-- `node.children ? node.children.map(child => addIds(child, node.id)) :
undefined`. -/
def addIdsOpt (seed : Nat) (pid : String) :
    Option (List BookmarkNode) → Nat × Option (List BookmarkNode)
  | none => (seed, none)
  | some cs =>
    let r := addIdsList seed pid cs
    (r.1, some r.2)

/-- Sequential `addIds` over a sibling list. -/
def addIdsList (seed : Nat) (pid : String) : List BookmarkNode → Nat × List BookmarkNode
  | [] => (seed, [])
  | c :: cs =>
    let r1 := addIdsNode seed (some pid) c
    let r2 := addIdsList r1.1 pid cs
    (r2.1, r1.2 :: r2.2)

end

/-- `data.bookmarks.map(node => addIds(node))`: roots get no parent id. -/
def addIdsRoots (seed : Nat) : List BookmarkNode → Nat × List BookmarkNode
  | [] => (seed, [])
  | c :: cs =>
    let r1 := addIdsNode seed none c
    let r2 := addIdsRoots r1.1 cs
    (r2.1, r1.2 :: r2.2)

/-- Embedding of `importFromJSON` after a successful parse of an export
payload: `data.bookmarks` exists and is an array by construction, so the
format guard passes and every root is rebuilt by `addIds`. -/
def importFromJSON (seed : Nat) (data : ExportData) : List BookmarkNode :=
  (addIdsRoots seed data.bookmarks).2

/-- The id/title/url/children view of a node, the fields C3 is about. -/
inductive NodeView where
  | mk (id title : String) (url : Option String) (children : Option (List NodeView))

mutual

/-- View of a node. -/
def viewNode : BookmarkNode → NodeView
  | .mk d ocs => .mk d.id d.title d.url (viewOpt ocs)

/-- View of an optional children field. -/
def viewOpt : Option (List BookmarkNode) → Option (List NodeView)
  | none => none
  | some cs => some (viewList cs)

/-- View of a forest. -/
def viewList : List BookmarkNode → List NodeView
  | [] => []
  | c :: cs => viewNode c :: viewList cs

end

mutual

/-- Every id in the tree is nonempty (truthy). -/
def idsNonempty : BookmarkNode → Bool
  | .mk d ocs => d.id != "" && idsNonemptyOpt ocs

/-- Nonempty ids below an optional children field. -/
def idsNonemptyOpt : Option (List BookmarkNode) → Bool
  | none => true
  | some cs => idsNonemptyList cs

/-- Nonempty ids in a forest. -/
def idsNonemptyList : List BookmarkNode → Bool
  | [] => true
  | c :: cs => idsNonempty c && idsNonemptyList cs

end

theorem keepNode_default (d : NodeData) : keepNode ⟨none, none⟩ d = true := rfl

theorem filterList_id (cs : List BookmarkNode)
    (hc : ∀ c ∈ cs, filterNode ⟨none, none⟩ c = c) :
    filterList ⟨none, none⟩ cs = cs := by
  induction cs with
  | nil => rfl
  | cons c cs ih =>
    rw [filterList, keepNode_default, if_pos rfl, hc c (List.mem_cons_self _ _),
      ih (fun c h => hc c (List.mem_cons_of_mem _ h))]
    rfl

theorem filterNode_id : ∀ n, filterNode ⟨none, none⟩ n = n := by
  apply BookmarkNode.ind
  intro d ocs ih
  cases ocs with
  | none => rfl
  | some cs =>
    rw [filterNode, filterOpt, filterList_id cs (fun c h => ih cs rfl c h)]

/-- Node-level property: `addIds` preserves the view when ids are
nonempty. -/
def AddIdsViewP (n : BookmarkNode) : Prop :=
  idsNonempty n = true →
    ∀ seed pid, viewNode (addIdsNode seed pid n).2 = viewNode n

theorem addIdsList_view (cs : List BookmarkNode) (hc : ∀ c ∈ cs, AddIdsViewP c)
    (h : idsNonemptyList cs = true) :
    ∀ seed pid, viewList (addIdsList seed pid cs).2 = viewList cs := by
  induction cs with
  | nil => intro seed pid; rfl
  | cons c cs ih =>
    intro seed pid
    rw [idsNonemptyList, Bool.and_eq_true] at h
    rw [addIdsList]
    show viewNode (addIdsNode seed (some pid) c).2 ::
        viewList (addIdsList (addIdsNode seed (some pid) c).1 pid cs).2 = _
    rw [hc c (List.mem_cons_self _ _) h.1,
      ih (fun c h => hc c (List.mem_cons_of_mem _ h)) h.2]
    rfl

theorem addIdsNode_view : ∀ n, AddIdsViewP n := by
  apply BookmarkNode.ind
  intro d ocs ih
  intro h seed pid
  rw [idsNonempty, Bool.and_eq_true] at h
  cases ocs with
  | none =>
    rw [addIdsNode]
    show viewNode (.mk { d with id := (if d.id != "" then (seed, d.id)
      else (seed + 1, generateId seed)).2, parentId := pid } none) = _
    rw [if_pos h.1]
    rfl
  | some cs =>
    rw [addIdsNode]
    show viewNode (.mk { d with id := (if d.id != "" then (seed, d.id)
        else (seed + 1, generateId seed)).2, parentId := pid }
      (addIdsOpt (if d.id != "" then (seed, d.id)
        else (seed + 1, generateId seed)).1 d.id (some cs)).2) = _
    rw [if_pos h.1]
    show viewNode (.mk { d with id := d.id, parentId := pid }
      (some (addIdsList seed d.id cs).2)) = _
    rw [viewNode, viewNode, viewOpt, viewOpt]
    rw [addIdsList_view cs (fun c hm => ih cs rfl c hm) h.2 seed d.id]

theorem addIdsRoots_view (cs : List BookmarkNode) (h : idsNonemptyList cs = true) :
    ∀ seed, viewList (addIdsRoots seed cs).2 = viewList cs := by
  induction cs with
  | nil => intro seed; rfl
  | cons c cs ih =>
    intro seed
    rw [idsNonemptyList, Bool.and_eq_true] at h
    rw [addIdsRoots]
    show viewNode (addIdsNode seed none c).2 ::
        viewList (addIdsRoots (addIdsNode seed none c).1 cs).2 = _
    rw [addIdsNode_view c h.1 seed none, ih h.2]
    rfl

/-- C3 (corrected): exporting a tree with `exportToJSON` under default
options and re-importing with `importFromJSON` preserves every node's id,
title, url and the children structure, provided every id in the tree is
nonempty (a falsy id is replaced by a freshly generated `bk_` id on
import). -/
theorem json_roundtrip_preserves_view (tree : List BookmarkNode) (seed : Nat) (now : String)
    (h : idsNonemptyList tree = true) :
    viewList (importFromJSON seed (exportToJSON now ⟨none, none⟩ tree)) = viewList tree := by
  show viewList (addIdsRoots seed (filterList ⟨none, none⟩ tree)).2 = viewList tree
  rw [filterList_id tree (fun c _ => filterNode_id c)]
  exact addIdsRoots_view tree h seed

/-- Witness for C3: a concrete one-node tree with nonempty id whose view
survives the round trip. -/
theorem json_roundtrip_preserves_view_witness :
    idsNonemptyList [wNode] = true ∧
    viewList (importFromJSON 0 (exportToJSON "2024" ⟨none, none⟩ [wNode])) =
      viewList [wNode] :=
  ⟨by decide, json_roundtrip_preserves_view [wNode] 0 "2024" (by decide)⟩

/-- Node with an empty (falsy) id. -/
def ceEmptyId : BookmarkNode := .mk ⟨"", "t", none, none, none⟩ none

/-- C3 counterexample: a node with an empty id does not keep its id through
the round trip; `addIds` replaces it by a generated `bk_` id. -/
theorem json_roundtrip_changes_empty_id :
    (importFromJSON 0 (exportToJSON "2024" ⟨none, none⟩ [ceEmptyId])).map
        (fun n => n.data.id) = ["bk_0"]
    ∧ [ceEmptyId].map (fun n => n.data.id) = [""]
    ∧ ("bk_0" : String) ≠ "" := by
  exact ⟨rfl, rfl, by decide⟩

/-- State of `removeDuplicates`: the `seenUrls` set and the key set of the
`seenTitles` map (its values are never read; `Set.has` / `Map.has` are list
membership). -/
structure DedupState where
  seenUrls : List String
  seenTitles : List String

/-- The title key `parentId ? parentId + ':' + title : title`; an empty
parent id string is falsy. -/
def dedupTitleKey (pid : Option String) (title : String) : String :=
  match pid with
  | some p => if p = "" then title else p ++ ":" ++ title
  | none => title

mutual

/-- The `processNode` closure of `removeDuplicates`: a url-bearing node is
dropped when its URL or its per-folder title key was seen, and recorded
otherwise; a folder is always kept, with nonempty children deduplicated
under the folder's id. -/
def dedupNode (st : DedupState) (pid : Option String) :
    BookmarkNode → DedupState × Option BookmarkNode
  | .mk d ocs =>
    if optTruthy d.url then
      if (d.url.getD "") ∈ st.seenUrls then (st, none)
      else if dedupTitleKey pid d.title ∈ st.seenTitles then
        (⟨(d.url.getD "") :: st.seenUrls, st.seenTitles⟩, none)
      else
        (⟨(d.url.getD "") :: st.seenUrls, dedupTitleKey pid d.title :: st.seenTitles⟩,
          some (.mk d ocs))
    else
      match ocs with
      | some cs =>
        if cs.isEmpty then (st, some (.mk d (some cs)))
        else
          ((dedupList st (some d.id) cs).1,
            some (.mk d (some (dedupList st (some d.id) cs).2)))
      | none => (st, some (.mk d none))

/-- Sequential deduplication of a sibling list, dropping the `null`
results. -/
def dedupList (st : DedupState) (pid : Option String) :
    List BookmarkNode → DedupState × List BookmarkNode
  | [] => (st, [])
  | n :: rest =>
    match dedupNode st pid n with
    | (st1, some n2) => ((dedupList st1 pid rest).1, n2 :: (dedupList st1 pid rest).2)
    | (st1, none) => dedupList st1 pid rest

end

/-- Embedding of `removeDuplicates`. -/
def removeDuplicates (bookmarks : List BookmarkNode) : List BookmarkNode :=
  (dedupList ⟨[], []⟩ none bookmarks).2

mutual

/-- Data-model invariant (spec section 3): a node with a truthy `url` is a
leaf, i.e. its children field is absent or empty. -/
def leafInvNode : BookmarkNode → Bool
  | .mk d ocs => (!(optTruthy d.url) || (ocs.getD []).isEmpty) && leafInvOpt ocs

/-- Leaf invariant below an optional children field. -/
def leafInvOpt : Option (List BookmarkNode) → Bool
  | none => true
  | some cs => leafInvList cs

/-- Leaf invariant of a forest. -/
def leafInvList : List BookmarkNode → Bool
  | [] => true
  | c :: cs => leafInvNode c && leafInvList cs

end

mutual

/-- URLs of the url-bearing nodes of a tree, in traversal order. -/
def urlsOfNode : BookmarkNode → List String
  | .mk d ocs => (if optTruthy d.url then [d.url.getD ""] else []) ++ urlsOfOpt ocs

/-- URLs below an optional children field. -/
def urlsOfOpt : Option (List BookmarkNode) → List String
  | none => []
  | some cs => urlsOfList cs

/-- URLs of a forest. -/
def urlsOfList : List BookmarkNode → List String
  | [] => []
  | c :: cs => urlsOfNode c ++ urlsOfList cs

end

/-- The folder skeleton of a forest: id, title and nesting of the folder
(url-less) nodes, url-bearing leaves dropped. -/
inductive FolderTree where
  | mk (id title : String) (sub : List FolderTree)

mutual

/-- Folder skeleton contributed by one node. -/
def shapeNode : BookmarkNode → List FolderTree
  | .mk d ocs => if optTruthy d.url then [] else [.mk d.id d.title (shapeOpt ocs)]

/-- Folder skeleton below an optional children field. -/
def shapeOpt : Option (List BookmarkNode) → List FolderTree
  | none => []
  | some cs => shapeList cs

/-- Folder skeleton of a forest. -/
def shapeList : List BookmarkNode → List FolderTree
  | [] => []
  | c :: cs => shapeNode c ++ shapeList cs

end

/-- URLs of an optional processed node. -/
def urlsOfOut : Option BookmarkNode → List String
  | none => []
  | some n => urlsOfNode n

/-- Folder skeleton of an optional processed node. -/
def shapeOfOut : Option BookmarkNode → List FolderTree
  | none => []
  | some n => shapeNode n

/-- Node-level specification of `dedupNode`: the seen-URL set grows, the
produced subtree's URLs are duplicate-free, new relative to the incoming
state and recorded in the outgoing state, and the folder skeleton is
preserved. -/
def DedupP (n : BookmarkNode) : Prop :=
  leafInvNode n = true →
    ∀ st pid st' o, dedupNode st pid n = (st', o) →
      (∀ u ∈ st.seenUrls, u ∈ st'.seenUrls)
      ∧ (urlsOfOut o).Nodup
      ∧ (∀ u ∈ urlsOfOut o, u ∈ st'.seenUrls ∧ u ∉ st.seenUrls)
      ∧ shapeOfOut o = shapeNode n

theorem dedupList_spec (cs : List BookmarkNode) (hc : ∀ c ∈ cs, DedupP c)
    (h : leafInvList cs = true) :
    ∀ st pid st' l, dedupList st pid cs = (st', l) →
      (∀ u ∈ st.seenUrls, u ∈ st'.seenUrls)
      ∧ (urlsOfList l).Nodup
      ∧ (∀ u ∈ urlsOfList l, u ∈ st'.seenUrls ∧ u ∉ st.seenUrls)
      ∧ shapeList l = shapeList cs := by
  induction cs with
  | nil =>
    intro st pid st' l he
    rw [dedupList] at he
    obtain ⟨rfl, rfl⟩ : st = st' ∧ [] = l := by
      exact ⟨congrArg Prod.fst he, congrArg Prod.snd he⟩
    exact ⟨fun u hu => hu, List.nodup_nil, by simp [urlsOfList], rfl⟩
  | cons c cs ih =>
    intro st pid st' l he
    rw [leafInvList, Bool.and_eq_true] at h
    have hstep := hc c (List.mem_cons_self _ _) h.1
    have htails := ih (fun x hx => hc x (List.mem_cons_of_mem _ hx)) h.2
    rw [dedupList] at he
    rcases hd : dedupNode st pid c with ⟨st1, o⟩
    rw [hd] at he
    cases o with
    | some n2 =>
      dsimp only at he
      rcases hr : dedupList st1 pid cs with ⟨st2, l2⟩
      rw [hr] at he
      obtain ⟨rfl, rfl⟩ : st2 = st' ∧ n2 :: l2 = l :=
        ⟨congrArg Prod.fst he, congrArg Prod.snd he⟩
      obtain ⟨hsub1, hnd1, hmem1, hsh1⟩ := hstep st pid st1 (some n2) hd
      obtain ⟨hsub2, hnd2, hmem2, hsh2⟩ := htails st1 pid st2 l2 hr
      refine ⟨fun u hu => hsub2 u (hsub1 u hu), ?_, ?_, ?_⟩
      · rw [urlsOfList]
        refine List.Nodup.append hnd1 hnd2 ?_
        intro a ha1 ha2
        exact (hmem2 a ha2).2 ((hmem1 a ha1).1)
      · intro u hu
        rw [urlsOfList, List.mem_append] at hu
        rcases hu with hu | hu
        · exact ⟨hsub2 u (hmem1 u hu).1, (hmem1 u hu).2⟩
        · exact ⟨(hmem2 u hu).1, fun hin => (hmem2 u hu).2 (hsub1 u hin)⟩
      · rw [shapeList, hsh2, show shapeNode n2 = shapeNode c from hsh1, ← shapeList]
    | none =>
      dsimp only at he
      obtain ⟨hsub1, hnd1, hmem1, hsh1⟩ := hstep st pid st1 none hd
      obtain ⟨hsub2, hnd2, hmem2, hsh2⟩ := htails st1 pid st' l he
      refine ⟨fun u hu => hsub2 u (hsub1 u hu), hnd2, ?_, ?_⟩
      · intro u hu
        exact ⟨(hmem2 u hu).1, fun hin => (hmem2 u hu).2 (hsub1 u hin)⟩
      · rw [hsh2, shapeList, ← show shapeOfOut none = shapeNode c from hsh1, shapeOfOut,
          List.nil_append]

theorem dedupNode_spec : ∀ n, DedupP n := by
  apply BookmarkNode.ind
  intro d ocs ih
  intro hinv st pid st' o he
  rw [leafInvNode, Bool.and_eq_true] at hinv
  by_cases hu : optTruthy d.url = true
  · have hurls : urlsOfOpt ocs = [] := by
      rcases ocs with _ | cs
      · rfl
      · have h1 := hinv.1
        rw [hu] at h1
        simp only [Bool.not_true, Bool.false_or, Option.getD_some] at h1
        rw [List.isEmpty_iff] at h1
        rw [h1]
        rfl
    rw [dedupNode.eq_def] at he
    dsimp only at he
    rw [if_pos hu] at he
    by_cases hseen : (d.url.getD "") ∈ st.seenUrls
    · rw [if_pos hseen] at he
      obtain ⟨rfl, rfl⟩ : st = st' ∧ (none : Option BookmarkNode) = o :=
        ⟨congrArg Prod.fst he, congrArg Prod.snd he⟩
      exact ⟨fun u h2 => h2, by simp [urlsOfOut], by simp [urlsOfOut],
        by simp [shapeOfOut, shapeNode, hu]⟩
    · rw [if_neg hseen] at he
      by_cases htit : dedupTitleKey pid d.title ∈ st.seenTitles
      · rw [if_pos htit] at he
        obtain ⟨rfl, rfl⟩ :
            (⟨(d.url.getD "") :: st.seenUrls, st.seenTitles⟩ : DedupState) = st' ∧
              (none : Option BookmarkNode) = o :=
          ⟨congrArg Prod.fst he, congrArg Prod.snd he⟩
        exact ⟨fun u h2 => List.mem_cons_of_mem _ h2, by simp [urlsOfOut],
          by simp [urlsOfOut], by simp [shapeOfOut, shapeNode, hu]⟩
      · rw [if_neg htit] at he
        obtain ⟨rfl, rfl⟩ :
            (⟨(d.url.getD "") :: st.seenUrls,
              dedupTitleKey pid d.title :: st.seenTitles⟩ : DedupState) = st' ∧
              (some (BookmarkNode.mk d ocs) : Option BookmarkNode) = o :=
          ⟨congrArg Prod.fst he, congrArg Prod.snd he⟩
        refine ⟨fun u h2 => List.mem_cons_of_mem _ h2, ?_, ?_, rfl⟩
        · simp [urlsOfOut, urlsOfNode, hu, hurls]
        · intro u h2
          simp only [urlsOfOut, urlsOfNode, hu, hurls, if_pos, List.append_nil,
            List.mem_singleton] at h2
          subst h2
          exact ⟨List.mem_cons_self _ _, hseen⟩
  · rw [dedupNode.eq_def] at he
    dsimp only at he
    rw [if_neg hu] at he
    rcases ocs with _ | cs
    · dsimp only at he
      obtain ⟨rfl, rfl⟩ : st = st' ∧ (some (BookmarkNode.mk d none) : Option BookmarkNode) = o :=
        ⟨congrArg Prod.fst he, congrArg Prod.snd he⟩
      refine ⟨fun u h2 => h2, ?_, ?_, rfl⟩
      · simp [urlsOfOut, urlsOfNode, hu, urlsOfOpt]
      · intro u h2
        simp [urlsOfOut, urlsOfNode, hu, urlsOfOpt] at h2
    · dsimp only at he
      by_cases hemp : cs.isEmpty = true
      · rw [if_pos hemp] at he
        have hcs : cs = [] := List.isEmpty_iff.mp hemp
        subst hcs
        obtain ⟨rfl, rfl⟩ :
            st = st' ∧ (some (BookmarkNode.mk d (some [])) : Option BookmarkNode) = o :=
          ⟨congrArg Prod.fst he, congrArg Prod.snd he⟩
        refine ⟨fun u h2 => h2, ?_, ?_, rfl⟩
        · simp [urlsOfOut, urlsOfNode, hu, urlsOfOpt, urlsOfList]
        · intro u h2
          simp [urlsOfOut, urlsOfNode, hu, urlsOfOpt, urlsOfList] at h2
      · rw [if_neg hemp] at he
        rcases hr : dedupList st (some d.id) cs with ⟨st2, l2⟩
        rw [hr] at he
        obtain ⟨rfl, rfl⟩ :
            st2 = st' ∧ (some (BookmarkNode.mk d (some l2)) : Option BookmarkNode) = o :=
          ⟨congrArg Prod.fst he, congrArg Prod.snd he⟩
        have hinv2 : leafInvList cs = true := hinv.2
        obtain ⟨hsub, hnd, hmem, hsh⟩ :=
          dedupList_spec cs (fun x hx => ih cs rfl x hx) hinv2 st (some d.id) st2 l2 hr
        refine ⟨hsub, ?_, ?_, ?_⟩
        · simpa [urlsOfOut, urlsOfNode, hu, urlsOfOpt] using hnd
        · intro u h2
          simp only [urlsOfOut, urlsOfNode, hu, urlsOfOpt, if_neg, Bool.false_eq_true,
            List.nil_append] at h2
          exact hmem u h2
        · simp [shapeOfOut, shapeNode, hu, shapeOpt, hsh]

/-- C9: on a forest satisfying the data-model invariant that a url-bearing
node is a leaf, `removeDuplicates` keeps each URL at most once among the
url-bearing nodes of the result and preserves every folder node (id, title
and nesting), even when deduplication leaves a folder empty. -/
theorem removeDuplicates_unique_urls_preserves_folders (bookmarks : List BookmarkNode)
    (h : leafInvList bookmarks = true) :
    (urlsOfList (removeDuplicates bookmarks)).Nodup
    ∧ shapeList (removeDuplicates bookmarks) = shapeList bookmarks := by
  rcases hr : dedupList ⟨[], []⟩ none bookmarks with ⟨st', l⟩
  have hspec := dedupList_spec bookmarks (fun c _ => dedupNode_spec c) h ⟨[], []⟩ none st' l hr
  have hout : removeDuplicates bookmarks = l := by
    rw [removeDuplicates, hr]
  rw [hout]
  exact ⟨hspec.2.1, hspec.2.2.2⟩

/-- Folder node containing the two duplicate-URL leaves. -/
def wFolder : BookmarkNode := .mk ⟨"f1", "folder", none, none, none⟩ (some [wDupA, wDupB])

/-- Witness for C9: a folder with two same-URL bookmarks; after
deduplication the URL occurs once and the folder skeleton is unchanged. -/
theorem removeDuplicates_witness :
    leafInvList [wFolder] = true ∧
    (urlsOfList (removeDuplicates [wFolder])).Nodup ∧
    shapeList (removeDuplicates [wFolder]) = shapeList [wFolder] :=
  ⟨by decide,
    (removeDuplicates_unique_urls_preserves_folders [wFolder] (by decide)).1,
    (removeDuplicates_unique_urls_preserves_folders [wFolder] (by decide)).2⟩

/-- Result of a link check (`types/index.ts`). -/
structure LinkCheckResult where
  url : String
  status : LCStatus
  statusCode : Option Nat
  redirectUrl : Option String
  error : Option String
  checkTime : Nat
deriving DecidableEq, Repr

/-- The part of a fetch `Response` that `processResponse` reads: status
code, the `redirected` flag, the final `url`, and the `Location` header. -/
structure HttpResponse where
  status : Nat
  redirected : Bool
  url : String
  location : Option String
deriving DecidableEq, Repr

/-- `Response.ok`: the status lies in the 200-299 range. -/
def responseOk (r : HttpResponse) : Bool :=
  decide (200 ≤ r.status ∧ r.status ≤ 299)

/-- Embedding of `processResponse`: ok first, then the `redirected` flag
with its permanent/temporary sub-cases, then raw 3xx, then the 4xx bucket
(404 broken, 403/429/401 access errors, 410 broken, other client errors),
then 5xx, then everything else. -/
def processResponse (now : Nat) (url : String) (r : HttpResponse) : LinkCheckResult :=
  if 200 ≤ r.status ∧ r.status ≤ 299 then ⟨url, .normal, none, none, none, now⟩
  else if r.redirected then
    if r.status = 301 ∨ r.status = 308 then
      ⟨url, .normal, some r.status, some r.url, none, now⟩
    else if r.status = 302 ∨ r.status = 303 ∨ r.status = 307 then
      ⟨url, .redirect, some r.status, some r.url, some "临时重定向，请验证目标链接", now⟩
    else ⟨url, .redirect, some r.status, some r.url, none, now⟩
  else if 300 ≤ r.status ∧ r.status < 400 then
    ⟨url, .redirect, some r.status, if optTruthy r.location then r.location else none,
      none, now⟩
  else if 400 ≤ r.status ∧ r.status < 500 then
    if r.status = 404 then ⟨url, .broken, none, none, none, now⟩
    else if r.status = 403 then
      ⟨url, .error, some r.status, none, some "访问被拒绝 (403)，网站可能存在但需要登录或权限", now⟩
    else if r.status = 429 then
      ⟨url, .error, some r.status, none, some "请求过于频繁 (429)，网站可能存在但被限流", now⟩
    else if r.status = 401 then
      ⟨url, .error, some r.status, none, some "未授权访问 (401)，网站可能存在但需要登录", now⟩
    else if r.status = 410 then
      ⟨url, .broken, some r.status, none, some "资源已永久删除 (410)", now⟩
    else ⟨url, .error, some r.status, none, some ("客户端错误: HTTP " ++ toString r.status), now⟩
  else if 500 ≤ r.status then
    ⟨url, .error, some r.status, none, some ("服务器错误: HTTP " ++ toString r.status), now⟩
  else ⟨url, .error, some r.status, none, some ("HTTP " ++ toString r.status), now⟩

/-- C2 (corrected): with the `redirected` flag unset the status buckets map
exactly as claimed (404/410 broken; 401/403/429 error, never broken; other
4xx and all 5xx error; 3xx redirect).  The permanent/temporary sub-cases
live in the `redirected` branch, where a permanent redirect (301/308) is
reported as `normal` and a temporary one (302/303/307) as `redirect` with a
verification warning. -/
theorem processResponse_status_buckets (now : Nat) (url : String) (r : HttpResponse) :
    (r.redirected = false →
      ((r.status = 404 ∨ r.status = 410) → (processResponse now url r).status = .broken)
      ∧ ((r.status = 401 ∨ r.status = 403 ∨ r.status = 429) →
          (processResponse now url r).status = .error ∧
          (processResponse now url r).status ≠ .broken)
      ∧ (400 ≤ r.status → r.status < 500 → r.status ≠ 401 → r.status ≠ 403 →
          r.status ≠ 404 → r.status ≠ 410 → r.status ≠ 429 →
          (processResponse now url r).status = .error)
      ∧ (500 ≤ r.status → r.status ≤ 599 → (processResponse now url r).status = .error)
      ∧ (300 ≤ r.status → r.status < 400 → (processResponse now url r).status = .redirect))
    ∧ (r.redirected = true → responseOk r = false →
      ((r.status = 301 ∨ r.status = 308) → (processResponse now url r).status = .normal)
      ∧ ((r.status = 302 ∨ r.status = 303 ∨ r.status = 307) →
          (processResponse now url r).status = .redirect ∧
          (processResponse now url r).error = some "临时重定向，请验证目标链接")) := by
  constructor
  · intro hred
    refine ⟨?_, ?_, ?_, ?_, ?_⟩
    · rintro (h4 | h4) <;> simp [processResponse, h4, hred]
    · rintro (h4 | h4 | h4) <;> simp [processResponse, h4, hred]
    · intro hge hlt h401 h403 h404 h410 h429
      unfold processResponse
      rw [if_neg (by omega : ¬(200 ≤ r.status ∧ r.status ≤ 299)), hred,
        if_neg (by simp : ¬(false = true)),
        if_neg (by omega : ¬(300 ≤ r.status ∧ r.status < 400)),
        if_pos (⟨hge, hlt⟩ : 400 ≤ r.status ∧ r.status < 500),
        if_neg h404, if_neg h403, if_neg h429, if_neg h401, if_neg h410]
    · intro hge hle
      unfold processResponse
      rw [if_neg (by omega : ¬(200 ≤ r.status ∧ r.status ≤ 299)), hred,
        if_neg (by simp : ¬(false = true)),
        if_neg (by omega : ¬(300 ≤ r.status ∧ r.status < 400)),
        if_neg (by omega : ¬(400 ≤ r.status ∧ r.status < 500)),
        if_pos hge]
    · intro hge hlt
      unfold processResponse
      rw [if_neg (by omega : ¬(200 ≤ r.status ∧ r.status ≤ 299)), hred,
        if_neg (by simp : ¬(false = true)),
        if_pos (⟨hge, hlt⟩ : 300 ≤ r.status ∧ r.status < 400)]
  · intro hred hok
    rw [responseOk, decide_eq_false_iff_not] at hok
    constructor
    · rintro (h3 | h3) <;> simp [processResponse, h3, hred]
    · rintro (h3 | h3 | h3) <;> simp [processResponse, h3, hred]

/-- Witness for C2: a plain 404 response maps to broken, and a
redirected 301 response maps to normal. -/
theorem processResponse_status_buckets_witness :
    (processResponse 0 "http://e" ⟨404, false, "http://e", none⟩).status = .broken ∧
    (processResponse 0 "http://e" ⟨301, true, "http://f", none⟩).status = .normal :=
  ⟨((processResponse_status_buckets 0 "http://e" ⟨404, false, "http://e", none⟩).1
      rfl).1 (Or.inl rfl),
    ((processResponse_status_buckets 0 "http://e" ⟨301, true, "http://f", none⟩).2
      rfl (by decide)).1 (Or.inl rfl)⟩

/-- C2 counterexample: a 404 response carrying the `redirected` flag lands
in the redirected branch, which precedes the 4xx bucket, and is classified
`redirect`, not `broken`. -/
theorem processResponse_redirected_404_not_broken :
    (processResponse 0 "http://e" ⟨404, true, "http://f", none⟩).status = .redirect ∧
    (processResponse 0 "http://e" ⟨404, true, "http://f", none⟩).status ≠ .broken := by
  exact ⟨rfl, by decide⟩

/-- Outcome of the no-cors GET fallback `performCheckWithNoCors`: an opaque
response after a measured elapsed time, an abort, or a rejection with an
error message. -/
inductive NoCorsOutcome where
  | response (elapsedMs : Nat)
  | abortError
  | fetchError (msg : String)

/-- Outcome of the HEAD fetch inside `performCheck`: a response, an abort
(`AbortError` from the internal 4.5s abort timer), or a rejection with
message `msg`; when the message is CORS-like the no-cors fallback runs with
its own outcome `fallback`. -/
inductive FetchOutcome where
  | response (r : HttpResponse)
  | abortError
  | fetchError (msg : String) (fallback : NoCorsOutcome)

/-- Outcome of the `Promise.race` in `checkUrl`: either `performCheck`
settles first (it never rejects: every path returns a result value), or the
5-second `createTimeoutPromise` rejection wins. -/
inductive RaceOutcome where
  | completed (o : FetchOutcome)
  | timedOut

/-- Embedding of `performCheckWithNoCors` over its outcome: too-fast and
too-slow heuristics, then the strict-mode and normal-mode guesses; an abort
is a timeout and rejections are classified by their message. -/
def performCheckWithNoCors (strictMode : Bool) (now : Nat) (url : String) :
    NoCorsOutcome → LinkCheckResult
  | .response t =>
    if t < 30 then ⟨url, .error, none, none, some "响应过快，可能无效", now⟩
    else if t > 4500 then
      ⟨url, .timeout, none, none, some ("响应超时 (" ++ toString t ++ "ms)"), now⟩
    else if strictMode then
      ⟨url, .error, none, none, some "无法准确验证（CORS限制），但网站可能正常，请手动检查", now⟩
    else ⟨url, .normal, none, none, some "CORS限制，无法获取详细信息，但网站可能正常", now⟩
  | .abortError => ⟨url, .timeout, none, none, some "请求超时", now⟩
  | .fetchError msg =>
    if jsIncludes (if msg = "" then "无法访问" else msg) "NetworkError" ||
        jsIncludes (if msg = "" then "无法访问" else msg) "Failed to fetch" then
      ⟨url, .error, none, none, some "网络连接失败，可能无法访问", now⟩
    else
      ⟨url, .error, none, none, some ("访问失败: " ++ (if msg = "" then "无法访问" else msg)), now⟩

/-- The CORS-like fetch failure test of `performCheck`. -/
def corsLike (msg : String) : Bool :=
  jsIncludes msg "Failed to fetch" || jsIncludes msg "CORS"

/-- Embedding of `performCheck` over its outcome: responses go to
`processResponse`, an abort is a timeout, CORS-like failures fall back to
the no-cors check, and other failures are errors. -/
def performCheck (strictMode : Bool) (now : Nat) (url : String) :
    FetchOutcome → LinkCheckResult
  | .response r => processResponse now url r
  | .abortError => ⟨url, .timeout, none, none, some "请求超时", now⟩
  | .fetchError msg fb =>
    if corsLike msg then performCheckWithNoCors strictMode now url fb
    else ⟨url, .error, none, none, some (if msg = "" then "网络错误" else msg), now⟩

/-- Embedding of `checkUrl` as a function of the race outcome.  The URL
validity guard runs first (an empty url is falsy and also fails
`startsWith('http')`); a settled `performCheck` result is returned as is; a
winning timeout rejection is caught by the generic catch, which reports
status `error` with the rejection's message `检测超时`. -/
def checkUrl (strictMode : Bool) (now : Nat) (url : String) : RaceOutcome → LinkCheckResult
  | race =>
    if !(jsStartsWith url "http") then ⟨url, .error, none, none, some "无效的URL", now⟩
    else
      match race with
      | .completed o => performCheck strictMode now url o
      | .timedOut => ⟨url, .error, none, none, some "检测超时", now⟩

theorem processResponse_url (now : Nat) (url : String) (r : HttpResponse) :
    (processResponse now url r).url = url := by
  unfold processResponse
  repeat' split
  all_goals rfl

theorem performCheckWithNoCors_url (strictMode : Bool) (now : Nat) (url : String)
    (fb : NoCorsOutcome) : (performCheckWithNoCors strictMode now url fb).url = url := by
  cases fb with
  | response t =>
    unfold performCheckWithNoCors
    repeat' split
    all_goals rfl
  | abortError => rfl
  | fetchError msg =>
    unfold performCheckWithNoCors
    repeat' split
    all_goals rfl

theorem performCheck_url (strictMode : Bool) (now : Nat) (url : String) (o : FetchOutcome) :
    (performCheck strictMode now url o).url = url := by
  cases o with
  | response r => exact processResponse_url now url r
  | abortError => rfl
  | fetchError msg fb =>
    show (if corsLike msg = true then performCheckWithNoCors strictMode now url fb
      else ⟨url, .error, none, none, some (if msg = "" then "网络错误" else msg), now⟩).url = url
    split
    · exact performCheckWithNoCors_url strictMode now url fb
    · rfl

/-- C10: every modelled outcome path of `checkUrl` yields a result value
whose `url` field equals the input string: the invalid-URL guard, HTTP
responses, aborts, network failures, the no-cors fallback and the race
timeout are all captured as result values, never as exceptions. -/
theorem checkUrl_url_preserved (strictMode : Bool) (now : Nat) (url : String)
    (race : RaceOutcome) : (checkUrl strictMode now url race).url = url := by
  unfold checkUrl
  split
  · rfl
  · cases race with
    | completed o => exact performCheck_url strictMode now url o
    | timedOut => rfl

/-- C6 counterexample: for a valid URL, when the outer timeout promise wins
the race the generic catch reports status `error` (with the timeout
message), not status `timeout`. -/
theorem checkUrl_race_timeout_status_error :
    (checkUrl false 0 "http://example.com" .timedOut).status = .error ∧
    (checkUrl false 0 "http://example.com" .timedOut).status ≠ .timeout ∧
    (checkUrl false 0 "http://example.com" .timedOut).error = some "检测超时" := by
  exact ⟨rfl, by decide, rfl⟩

/-- C6 (corrected): for a URL passing the validity guard, the HEAD request
is raced against the timeout; when the request's own abort timer fires
(`AbortError`) the result has status `timeout`, but when the outer race
timeout wins, the generic catch returns status `error` carrying the timeout
message `检测超时`. -/
theorem checkUrl_timeout_paths (strictMode : Bool) (now : Nat) (url : String)
    (h : jsStartsWith url "http" = true) :
    checkUrl strictMode now url RaceOutcome.timedOut =
      ⟨url, .error, none, none, some "检测超时", now⟩
    ∧ checkUrl strictMode now url (.completed .abortError) =
      ⟨url, .timeout, none, none, some "请求超时", now⟩ := by
  constructor <;> simp [checkUrl, h, performCheck]

/-- Witness for C6 at a concrete URL. -/
theorem checkUrl_timeout_paths_witness :
    jsStartsWith "http://example.com" "http" = true ∧
    checkUrl false 0 "http://example.com" RaceOutcome.timedOut =
      ⟨"http://example.com", .error, none, none, some "检测超时", 0⟩ ∧
    checkUrl false 0 "http://example.com" (.completed .abortError) =
      ⟨"http://example.com", .timeout, none, none, some "请求超时", 0⟩ :=
  ⟨by decide, (checkUrl_timeout_paths false 0 "http://example.com" (by decide)).1,
    (checkUrl_timeout_paths false 0 "http://example.com" (by decide)).2⟩

mutual

/-- URL collection of `checkAllUrls`: url-bearing nodes whose URL starts
with `http`, in traversal order. -/
def collectHttpNode : BookmarkNode → List String
  | .mk d ocs =>
    (if optTruthy d.url && jsStartsWith (d.url.getD "") "http" then [d.url.getD ""] else [])
      ++ collectHttpOpt ocs

/-- `node.children?.forEach(collectUrls)`. -/
def collectHttpOpt : Option (List BookmarkNode) → List String
  | none => []
  | some cs => collectHttpList cs

/-- URL collection over a forest. -/
def collectHttpList : List BookmarkNode → List String
  | [] => []
  | c :: cs => collectHttpNode c ++ collectHttpList cs

end

/-- The sequential `for` loop of `checkAllUrls` with its polled cancellation
flag: `flag i` is the value of `isCancelled` observed at the top of
iteration `i`, and `check` abstracts the per-URL check.  The pause wait and
the progress callbacks do not change which URLs are processed, and
`checkUrl` never rejects, so the per-URL catch branch is dead and
omitted. -/
def checkLoop (check : String → LinkCheckResult) (flag : Nat → Bool) :
    List String → Nat → List LinkCheckResult
  | [], _ => []
  | u :: rest, i =>
    if flag i then [] else check u :: checkLoop check flag rest (i + 1)

/-- Embedding of `checkAllUrls`, entered with `isChecking` unset: collect
the http URLs, then run the polled loop from iteration 0. -/
def checkAllUrls (check : String → LinkCheckResult) (flag : Nat → Bool)
    (bookmarks : List BookmarkNode) : List LinkCheckResult :=
  checkLoop check flag (collectHttpList bookmarks) 0

theorem checkLoop_take (check : String → LinkCheckResult) (flag : Nat → Bool) :
    ∀ urls i, ∃ k, k ≤ urls.length ∧ (∀ j, j < k → flag (i + j) = false)
      ∧ (k < urls.length → flag (i + k) = true)
      ∧ checkLoop check flag urls i = (urls.take k).map check := by
  intro urls
  induction urls with
  | nil =>
    intro i
    exact ⟨0, Nat.le_refl _, fun j hj => absurd hj (Nat.not_lt_zero j),
      fun h => absurd h (by simp), by simp [checkLoop]⟩
  | cons u rest ih =>
    intro i
    by_cases hf : flag i = true
    · refine ⟨0, Nat.zero_le _, fun j hj => absurd hj (Nat.not_lt_zero j),
        fun _ => by simpa using hf, ?_⟩
      simp [checkLoop, hf]
    · obtain ⟨k, hk1, hk2, hk3, hk4⟩ := ih (i + 1)
      refine ⟨k + 1, by simpa using Nat.succ_le_succ hk1, ?_, ?_, ?_⟩
      · intro j hj
        cases j with
        | zero =>
          have : flag i = false := by
            revert hf
            cases flag i <;> simp
          simpa using this
        | succ j =>
          have hlt : j < k := by omega
          have heq : i + (j + 1) = (i + 1) + j := by omega
          rw [heq]
          exact hk2 j hlt
      · intro hlt
        have hlt2 : k < rest.length := by
          simp only [List.length_cons] at hlt
          omega
        have heq : i + (k + 1) = (i + 1) + k := by omega
        rw [heq]
        exact hk3 hlt2
      · rw [checkLoop, if_neg hf, hk4, List.take_succ_cons, List.map_cons]

/-- C7: cancellation of the link-check loop is a polled flag: the results of
`checkAllUrls` are exactly the checks of the first `k` collected URLs, where
`k` is the first iteration that observed the flag (the whole list when it
never fires); before `k` the flag always read false, and no later URL's
check is started. -/
theorem checkAllUrls_cancel_cut (check : String → LinkCheckResult) (flag : Nat → Bool)
    (bookmarks : List BookmarkNode) (hu : ∀ u, (check u).url = u) :
    ∃ k, k ≤ (collectHttpList bookmarks).length
      ∧ (∀ j, j < k → flag j = false)
      ∧ (k < (collectHttpList bookmarks).length → flag k = true)
      ∧ checkAllUrls check flag bookmarks = ((collectHttpList bookmarks).take k).map check
      ∧ (checkAllUrls check flag bookmarks).map LinkCheckResult.url =
          (collectHttpList bookmarks).take k := by
  obtain ⟨k, h1, h2, h3, h4⟩ := checkLoop_take check flag (collectHttpList bookmarks) 0
  refine ⟨k, h1, fun j hj => by simpa using h2 j hj, fun h => by simpa using h3 h,
    h4, ?_⟩
  unfold checkAllUrls
  rw [h4, List.map_map]
  have : ∀ a ∈ (collectHttpList bookmarks).take k,
      (LinkCheckResult.url ∘ check) a = id a := fun a _ => hu a
  rw [List.map_congr_left this, List.map_id]

/-- A check oracle that returns a normal result for every URL. -/
def wCheck : String → LinkCheckResult := fun u => ⟨u, .normal, none, none, none, 0⟩

/-- A cancellation flag that never fires. -/
def wFlagOff : Nat → Bool := fun _ => false

/-- Witness for C7: with the flag never set, the single collected URL of the
witness forest is checked. -/
theorem checkAllUrls_cancel_cut_witness :
    checkAllUrls wCheck wFlagOff [wNode] = [wCheck "http://github.com"] := by
  obtain ⟨k, h1, h2, h3, h4, h5⟩ :=
    checkAllUrls_cancel_cut wCheck wFlagOff [wNode] (fun u => rfl)
  have hlen : (collectHttpList [wNode]).length = 1 := rfl
  have hk : k = 1 := by
    rcases Nat.lt_or_ge k 1 with h | h
    · exact absurd (h3 (by omega)) (by simp [wFlagOff])
    · omega
  rw [h4, hk]
  rfl

/-- User record (`types/index.ts`); the optional `avatar` is read nowhere
relevant and omitted. -/
structure User where
  id : String
  email : String
  username : String
  createdAt : Nat
  lastSyncTime : Nat
  syncEnabled : Bool
deriving DecidableEq, Repr

/-- Sync payload (`types/index.ts`). -/
structure SyncData where
  userId : String
  bookmarks : List BookmarkNode
  timestamp : Nat
  version : String

/-- The two localStorage slots of the cloud-sync service, holding parsed
values: `getCurrentUser` returns null both for a missing and an unparsable
entry, so each slot is an optional value. -/
structure CloudStorage where
  user : Option User
  syncData : Option SyncData

/-- Embedding of `getCurrentUser`. -/
def getCurrentUser (st : CloudStorage) : Option User := st.user

/-- Embedding of `uploadBookmarks`: the not-logged-in guard, then write the
sync payload and the refreshed user; `Date.now()` is the `now` argument. -/
def uploadBookmarks (st : CloudStorage) (bookmarks : List BookmarkNode) (now : Nat) :
    Except String Unit × CloudStorage :=
  match getCurrentUser st with
  | none => (.error "用户未登录", st)
  | some u =>
    (.ok (), ⟨some { u with lastSyncTime := now }, some ⟨u.id, bookmarks, now, "1.0.0"⟩⟩)

/-- Embedding of `downloadBookmarks`: the guard, then the stored payload's
bookmark list (empty when nothing is stored); storage unchanged. -/
def downloadBookmarks (st : CloudStorage) : Except String (List BookmarkNode) × CloudStorage :=
  match getCurrentUser st with
  | none => (.error "用户未登录", st)
  | some _ =>
    match st.syncData with
    | none => (.ok [], st)
    | some sd => (.ok sd.bookmarks, st)

/-- Embedding of `syncBookmarks`: the guard, upload, then download; the
cloud copy wins. -/
def syncBookmarks (st : CloudStorage) (localBookmarks : List BookmarkNode) (now : Nat) :
    Except String (List BookmarkNode) × CloudStorage :=
  match getCurrentUser st with
  | none => (.error "用户未登录", st)
  | some _ =>
    match uploadBookmarks st localBookmarks now with
    | (.error e, st1) => (.error e, st1)
    | (.ok _, st1) => downloadBookmarks st1

/-- C8: each of the three sync operations raises the not-logged-in guard
error exactly when no user is stored; with a user present the guard error
never occurs, and on the guard path the stored sync data (indeed the whole
storage) is left unchanged. -/
theorem cloudSync_login_guard (st : CloudStorage) (bookmarks : List BookmarkNode) (now : Nat) :
    ((uploadBookmarks st bookmarks now).1 = .error "用户未登录" ↔ st.user = none)
    ∧ ((downloadBookmarks st).1 = .error "用户未登录" ↔ st.user = none)
    ∧ ((syncBookmarks st bookmarks now).1 = .error "用户未登录" ↔ st.user = none)
    ∧ (st.user = none →
        (uploadBookmarks st bookmarks now).2 = st ∧
        (downloadBookmarks st).2 = st ∧
        (syncBookmarks st bookmarks now).2 = st) := by
  cases hu : st.user with
  | none =>
    simp [uploadBookmarks, downloadBookmarks, syncBookmarks, getCurrentUser, hu]
  | some u =>
    cases hsd : st.syncData with
    | none =>
      simp [uploadBookmarks, downloadBookmarks, syncBookmarks, getCurrentUser, hu, hsd]
    | some sd =>
      simp [uploadBookmarks, downloadBookmarks, syncBookmarks, getCurrentUser, hu, hsd]

/-- Empty storage: nobody logged in, nothing synced. -/
def wStore0 : CloudStorage := ⟨none, none⟩

/-- Storage with a logged-in user. -/
def wStore1 : CloudStorage := ⟨some ⟨"u1", "a@b.c", "a", 0, 0, true⟩, none⟩

/-- Witness for C8: with no user the upload raises the guard error and
leaves storage unchanged; with a user it does not raise it. -/
theorem cloudSync_login_guard_witness :
    (uploadBookmarks wStore0 [] 5).1 = .error "用户未登录" ∧
    (uploadBookmarks wStore0 [] 5).2 = wStore0 ∧
    ¬((uploadBookmarks wStore1 [] 5).1 = .error "用户未登录") := by
  refine ⟨(cloudSync_login_guard wStore0 [] 5).1.mpr rfl,
    ((cloudSync_login_guard wStore0 [] 5).2.2.2 rfl).1, ?_⟩
  intro hc
  exact absurd ((cloudSync_login_guard wStore1 [] 5).1.mp hc) (by decide)

end BookmarkMgr
